import Mathlib

/-!
Shallow embedding of the multi-source specification reconciliation engine of
`gathering-assistant` (files `src/search_utils.py` and `src/pdf_utils.py`),
together with theorems settling the frozen claims about it.

Python strings are modelled as `List Char` (`Str`).  Helper functions model
the exact Python string primitives the code uses (`split`, `strip`, `lower`,
`startswith`, substring membership, `split(sep, 1)[1]`, `join`).  The Python
ASCII texts appearing in the program are well inside the fragment where
`Char.toLower` / `Char.isWhitespace` agree with Python's `str.lower` /
`str.strip`.  Python `float` arithmetic on the confidence ratios is modelled
exactly over `ℚ`, matching the spec's real-number reading of the thresholds.
-/

/-- Python strings are modelled as lists of characters. -/
abbrev Str := List Char

/-- Model of Python `str.lower()` (ASCII fragment). -/
def pyLower (s : Str) : Str := s.map Char.toLower

/-- Model of Python `str.strip()`: drop whitespace from both ends. -/
def pyStrip (s : Str) : Str :=
  ((s.dropWhile Char.isWhitespace).reverse.dropWhile Char.isWhitespace).reverse

/-- Model of Python `s.startswith(p)`. -/
def pyStartsWith (s p : Str) : Bool := p.isPrefixOf s

/-- Fuel-driven worker for `pySplit`; the fuel is an upper bound on the number
of characters still to be scanned, so with fuel `s.length + 1` the first
pattern never fires. -/
def splitOnGo (sep : Str) : Nat → Str → Str → List Str
  | 0, l, cur => [cur.reverse ++ l]
  | _ + 1, [], cur => [cur.reverse]
  | fuel + 1, c :: rest, cur =>
    if sep.isPrefixOf (c :: rest) then
      cur.reverse :: splitOnGo sep fuel ((c :: rest).drop sep.length) []
    else
      splitOnGo sep fuel rest (c :: cur)

/-- Model of Python `s.split(sep)` for a non-empty separator: split on
non-overlapping occurrences, left to right, keeping empty pieces.  (The code
never calls `split` with an empty separator; that case is mapped to `[s]`.) -/
def pySplit (s sep : Str) : List Str :=
  if sep = [] then [s] else splitOnGo sep (s.length + 1) s []

/-- Model of Python `sub in s` (substring membership): the empty string is a
substring of everything, otherwise `split` must produce at least two pieces. -/
def pyContains (s sub : Str) : Bool := sub = [] || (pySplit s sub).length ≥ 2

/-- Model of Python `s.split(c, 1)[1]`: everything after the first occurrence
of `c` (the code only evaluates this under a guard ensuring `c` occurs). -/
def afterFirst (c : Char) (s : Str) : Str := (s.dropWhile (· ≠ c)).drop 1

/-- Model of Python `s.split(c, 1)[0]`: everything before the first
occurrence of `c`. -/
def beforeFirst (c : Char) (s : Str) : Str := s.takeWhile (· ≠ c)

/-- Model of Python `sep.join(parts)`. -/
def pyJoin (sep : Str) (parts : List Str) : Str := List.intercalate sep parts

/-! ## Data model (spec §3)

`ParsedField` is one successful extraction of one specification from one raw
answer — the dictionaries `{"value": .., "source": .., "reasoning": ..}`
built by `process_response` (`search_utils.py:138-142`). -/

/-- One parsed `{value, source, reasoning}` record. -/
structure ParsedField where
  value : Str
  source : Str
  reasoning : Str
deriving DecidableEq

/-- The `{url, title, confidence_notes}` sub-record of a verdict. -/
structure SourceInfo where
  url : Str
  title : Str
  confidence_notes : Str
deriving DecidableEq

/-- The verdict fragment returned by `calculate_confidence`
(`search_utils.py:149-202`): value, confidence, validation tier, source
information and joined reasoning.  The Python `float` confidence is modelled
exactly in `ℚ`. -/
structure ConfidenceResult where
  value : Str
  confidence : ℚ
  validation_status : Str
  source : SourceInfo
  reasoning : Str
deriving DecidableEq

/-! ## Response Parser (`process_response`, `search_utils.py:100-147`) -/

/-- The four local variables of the line-scanning loop of `process_response`
(`search_utils.py:115-133`). -/
structure SectionAcc where
  value : Str
  source_url : Str
  source_notes : Str
  reasoning : Str
deriving DecidableEq

/-- Initial values of the loop variables: `value = "-"`, the rest empty
(`search_utils.py:115-118`). -/
def initialSectionAcc : SectionAcc := ⟨"-".data, [], [], []⟩

/-- One iteration of the line loop (`search_utils.py:120-133`): strip the
line; a `value:` / `source:` prefix (case-insensitive) captures the rest of
the line after the first colon; a `confidence:` prefix captures reasoning
(and `source_notes`) from the text after the first comma, when there is one. -/
def processLine (acc : SectionAcc) (rawLine : Str) : SectionAcc :=
  let line := pyStrip rawLine
  if pyStartsWith (pyLower line) "value:".data then
    { acc with value := pyStrip (afterFirst ':' line) }
  else if pyStartsWith (pyLower line) "source:".data then
    { acc with source_url := pyStrip (afterFirst ':' line) }
  else if pyStartsWith (pyLower line) "confidence:".data then
    let conf_text := pyStrip (afterFirst ':' line)
    if conf_text.contains ',' then
      let r := pyStrip (afterFirst ',' conf_text)
      { acc with source_notes := r, reasoning := r }
    else acc
  else acc

/-- Scan all lines of a section (`for line in lines`, `search_utils.py:120`). -/
def processSection (sec : Str) : SectionAcc :=
  (pySplit sec "\n".data).foldl processLine initialSectionAcc

/-- The candidate sections of a raw answer
(`search_utils.py:105`): split on blank lines, strip, drop empties. -/
def sectionsOf (raw : Str) : List Str :=
  ((pySplit raw "\n\n".data).map pyStrip).filter (fun s => s ≠ [])

/-- The section-matching test of `search_utils.py:112`: the lower-cased
section starts with the lower-cased specification name, or the name occurs in
the first line of the section. -/
def sectionMatches (spec sec : Str) : Bool :=
  pyStartsWith (pyLower sec) (pyLower spec) ||
    pyContains ((pySplit (pyLower sec) "\n".data).headD []) (pyLower spec)

/-- A line that assigns `value` in the loop of `search_utils.py:120-124`. -/
def isValueLine (line : Str) : Bool :=
  pyStartsWith (pyLower (pyStrip line)) "value:".data

/-- The fields one raw answer contributes for one specification name
(`search_utils.py:111-144`): the `break` makes the scan stop at the first
matching section; the parsed record is appended only when the extracted value
differs from `"-"` (`search_utils.py:137`). -/
def fieldsFromAnswer (raw spec : Str) : List ParsedField :=
  match (sectionsOf raw).find? (sectionMatches spec) with
  | none => []
  | some sec =>
    let acc := processSection sec
    if acc.value ≠ "-".data then [⟨acc.value, acc.source_url, acc.reasoning⟩]
    else []

/-- The entry of the `processed_specs` dictionary of `process_response` for
the name `spec` (empty when absent, as read by `.get(spec, [])` downstream).
The dictionary receives one append per occurrence of the name in
`specifications` (`search_utils.py:109-144`), which the filter reproduces
exactly, duplicated names included. -/
def process_response (raw : Str) (specifications : List Str) (spec : Str) :
    List ParsedField :=
  (specifications.filter (fun s => s = spec)).flatMap (fun s => fieldsFromAnswer raw s)

/-! ## Confidence Aggregator (`calculate_confidence`, `search_utils.py:149-202`) -/

/-- The per-value accumulator entries of the `value_counts` dictionary
(`search_utils.py:163-175`). -/
structure GroupDetails where
  count : Nat
  sources : List Str
  reasoning : List Str
deriving DecidableEq

/-- One iteration of the counting loop (`search_utils.py:164-175`) over the
insertion-ordered dictionary, modelled as an association list: an existing
key is updated in place, a new key is appended at the end. -/
def addField (acc : List (Str × GroupDetails)) (f : ParsedField) :
    List (Str × GroupDetails) :=
  if acc.any (fun p => p.1 = f.value) then
    acc.map (fun p =>
      if p.1 = f.value then
        (p.1, ⟨p.2.count + 1, p.2.sources ++ [f.source], p.2.reasoning ++ [f.reasoning]⟩)
      else p)
  else
    acc ++ [(f.value, ⟨1, [f.source], [f.reasoning]⟩)]

/-- The `value_counts` dictionary after the counting loop. -/
def valueCounts (fields : List ParsedField) : List (Str × GroupDetails) :=
  fields.foldl addField []

/-- Model of `max(value_counts.items(), key=lambda x: x[1]["count"])`
(`search_utils.py:178`): Python's `max` keeps the first maximal item in
iteration order, replacing the current best only on a strictly greater key. -/
def pyMaxByCount : List (Str × GroupDetails) → Option (Str × GroupDetails)
  | [] => none
  | h :: t => some (t.foldl (fun b p => if p.2.count > b.2.count then p else b) h)

/-- The sentinel returned for an empty input (`search_utils.py:153-160`). -/
def noResultsFound : ConfidenceResult :=
  ⟨"-".data, 0, "grey".data, ⟨[], [], "No results found".data⟩,
    "No results found".data⟩

/-- The verdict built from the winning `(value, details)` pair and the total
number of fields (`search_utils.py:181-202`).  `int(confidence * 100)` on the
exact ratio `count / total` is truncation towards zero of a non-negative
number, written here as the natural division `(100 * count) / total`. -/
def confidenceFromEntry (total : Nat) (e : Str × GroupDetails) : ConfidenceResult :=
  let confidence : ℚ := (e.2.count : ℚ) / (total : ℚ)
  { value := e.1
    confidence := confidence
    validation_status :=
      if confidence = 1 then "green".data
      else if confidence ≥ 66 / 100 then "yellow".data
      else "red".data
    source :=
      { url := e.2.sources.headD []
        title := if e.2.sources.length > 1 then "Multiple Sources".data
                 else "Source".data
        confidence_notes :=
          (Nat.repr ((100 * e.2.count) / total)).data ++
            "% confidence based on ".data ++ (Nat.repr e.2.count).data ++
            "/".data ++ (Nat.repr total).data ++ " matching results".data }
    reasoning := pyJoin " | ".data e.2.reasoning }

/-- Function `calculate_confidence` (`search_utils.py:149-202`).  The `none` branch of
the match is unreachable: a non-empty input always yields a non-empty
dictionary (in Python, `max` is only reached with `spec_results` non-empty). -/
def calculate_confidence (spec_results : List ParsedField) : ConfidenceResult :=
  if spec_results = [] then noResultsFound
  else
    match pyMaxByCount (valueCounts spec_results) with
    | none => noResultsFound
    | some e => confidenceFromEntry spec_results.length e

/-! ## Spec-side characterisations used by the claims -/

/-- The sequence of values of a list of parsed fields, in input order. -/
def valuesOf (fields : List ParsedField) : List Str := fields.map (fun f => f.value)

/-- Value `v` has maximal multiplicity among the values of `fields`. -/
def isMaxCount (fields : List ParsedField) (v : Str) : Bool :=
  (valuesOf fields).all (fun w => (valuesOf fields).count w ≤ (valuesOf fields).count v)

/-- The earliest-occurring value of maximal multiplicity (the insertion-order
tie-break the spec demands). -/
def firstMaxValue (fields : List ParsedField) : Option Str :=
  (valuesOf fields).find? (isMaxCount fields)

/-- First-occurrence deduplication: the keys of an insertion-ordered
dictionary built by repeated `if key in dict` updates. -/
def firstOccs : List Str → List Str
  | [] => []
  | v :: vs => v :: (firstOccs vs).filter (fun w => w ≠ v)

/-- The group the counting loop accumulates for a value `v`: its
multiplicity, and the sources / reasoning strings of the fields carrying `v`,
in encounter order. -/
def groupOf (fields : List ParsedField) (v : Str) : GroupDetails :=
  ⟨(valuesOf fields).count v,
   (fields.filter (fun f => f.value = v)).map (fun f => f.source),
   (fields.filter (fun f => f.value = v)).map (fun f => f.reasoning)⟩

/-- Closed form of the `value_counts` dictionary: one entry per distinct
value, in first-occurrence order. -/
def groupsOf (fields : List ParsedField) : List (Str × GroupDetails) :=
  (firstOccs (valuesOf fields)).map (fun v => (v, groupOf fields v))

theorem mem_firstOccs {x : Str} : ∀ {l : List Str}, x ∈ firstOccs l ↔ x ∈ l := by
  intro l
  induction l with
  | nil => simp [firstOccs]
  | cons v vs ih =>
    by_cases hxv : x = v
    · subst hxv; simp [firstOccs]
    · simp [firstOccs, List.mem_filter, hxv, ih]

theorem firstOccs_append_singleton (l : List Str) (v : Str) :
    firstOccs (l ++ [v]) = if v ∈ l then firstOccs l else firstOccs l ++ [v] := by
  induction l with
  | nil => simp [firstOccs]
  | cons a l ih =>
    rw [List.cons_append]
    show a :: (firstOccs (l ++ [v])).filter (fun w => w ≠ a) = _
    rw [ih]
    by_cases hvl : v ∈ l
    · rw [if_pos hvl, if_pos (List.mem_cons.mpr (Or.inr hvl))]
      rfl
    · by_cases hva : v = a
      · subst hva
        rw [if_neg hvl, if_pos (List.mem_cons.mpr (Or.inl rfl)), List.filter_append]
        show v :: ((firstOccs l).filter (fun w => w ≠ v) ++
          [v].filter (fun w => w ≠ v)) = _
        rw [List.filter_cons_of_neg (by simp)]
        simp [firstOccs]
      · rw [if_neg hvl, if_neg (by simp [hva, hvl]), List.filter_append]
        show a :: ((firstOccs l).filter (fun w => w ≠ a) ++
          [v].filter (fun w => w ≠ a)) = _
        rw [List.filter_cons_of_pos (by simp [hva])]
        simp [firstOccs]

theorem find?_filter_ne {p : Str → Bool} {a : Str} (hpa : p a = false) :
    ∀ (l : List Str), (l.filter (fun w => w ≠ a)).find? p = l.find? p := by
  intro l
  induction l with
  | nil => rfl
  | cons b l ih =>
    by_cases hba : b = a
    · subst hba
      rw [List.filter_cons_of_neg (by simp), ih,
        List.find?_cons_of_neg _ (by simp [hpa])]
    · rw [List.filter_cons_of_pos (by simp [hba])]
      cases hpb : p b with
      | true =>
        rw [List.find?_cons_of_pos _ hpb, List.find?_cons_of_pos _ hpb]
      | false =>
        rw [List.find?_cons_of_neg _ (by simp [hpb]),
          List.find?_cons_of_neg _ (by simp [hpb]), ih]

theorem find?_firstOccs (p : Str → Bool) :
    ∀ (l : List Str), (firstOccs l).find? p = l.find? p := by
  intro l
  induction l with
  | nil => rfl
  | cons v vs ih =>
    cases hpv : p v with
    | true =>
      show List.find? p (v :: (firstOccs vs).filter (fun w => w ≠ v)) = _
      rw [List.find?_cons_of_pos _ hpv, List.find?_cons_of_pos _ hpv]
    | false =>
      show List.find? p (v :: (firstOccs vs).filter (fun w => w ≠ v)) = _
      rw [List.find?_cons_of_neg _ (by simp [hpv]),
        List.find?_cons_of_neg _ (by simp [hpv]), find?_filter_ne hpv, ih]

theorem all_firstOccs (p : Str → Bool) (l : List Str) :
    (firstOccs l).all p = l.all p := by
  rw [Bool.eq_iff_iff]
  simp only [List.all_eq_true]
  constructor
  · intro h x hx; exact h x (mem_firstOccs.mpr hx)
  · intro h x hx; exact h x (mem_firstOccs.mp hx)

theorem groupOf_append_self (l : List ParsedField) (f : ParsedField) :
    groupOf (l ++ [f]) f.value =
      ⟨(valuesOf l).count f.value + 1,
       (l.filter (fun g => g.value = f.value)).map (fun g => g.source) ++ [f.source],
       (l.filter (fun g => g.value = f.value)).map (fun g => g.reasoning) ++ [f.reasoning]⟩ := by
  have hvals : valuesOf (l ++ [f]) = valuesOf l ++ [f.value] := by simp [valuesOf]
  have hfilter : (l ++ [f]).filter (fun g => g.value = f.value) =
      l.filter (fun g => g.value = f.value) ++ [f] := by
    simp [List.filter_append]
  rw [groupOf, hvals, hfilter]
  simp

theorem groupOf_append_ne (l : List ParsedField) (f : ParsedField) (v : Str)
    (hvf : v ≠ f.value) : groupOf (l ++ [f]) v = groupOf l v := by
  have hvals : valuesOf (l ++ [f]) = valuesOf l ++ [f.value] := by simp [valuesOf]
  have hfilter : (l ++ [f]).filter (fun g => g.value = v) =
      l.filter (fun g => g.value = v) := by
    simp [List.filter_append, Ne.symm hvf]
  rw [groupOf, groupOf, hvals, hfilter]
  have hne : (f.value == v) = false := by simpa using Ne.symm hvf
  simp [List.count_append, List.count_singleton, hne]

theorem valueCounts_eq_groupsOf (fields : List ParsedField) :
    valueCounts fields = groupsOf fields := by
  induction fields using List.reverseRecOn with
  | nil => rfl
  | append_singleton l f ih =>
    have hstep : valueCounts (l ++ [f]) = addField (valueCounts l) f := by
      simp [valueCounts, List.foldl_append]
    rw [hstep, ih]
    have hvals : valuesOf (l ++ [f]) = valuesOf l ++ [f.value] := by
      simp [valuesOf]
    by_cases hmem : f.value ∈ valuesOf l
    · have hany : (groupsOf l).any (fun p => p.1 = f.value) = true := by
        rw [List.any_eq_true]
        exact ⟨(f.value, groupOf l f.value),
          List.mem_map.mpr ⟨f.value, mem_firstOccs.mpr hmem, rfl⟩, by simp⟩
      rw [addField, if_pos hany]
      conv_rhs => rw [groupsOf, hvals, firstOccs_append_singleton]
      rw [if_pos hmem]
      conv_lhs => rw [groupsOf, List.map_map]
      refine List.map_congr_left ?_
      intro v hv
      by_cases hvf : v = f.value
      · subst hvf
        simp [groupOf_append_self, groupOf]
        rw [hvals]
        simp
      · simp only [Function.comp_apply, if_neg hvf, groupOf_append_ne l f v hvf]
    · have hany : (groupsOf l).any (fun p => p.1 = f.value) = false := by
        rw [Bool.eq_false_iff]
        intro hc
        rw [List.any_eq_true] at hc
        obtain ⟨q, hq, hq1⟩ := hc
        obtain ⟨v, hv, rfl⟩ := List.mem_map.mp hq
        exact hmem (by simpa [show v = f.value from by simpa using hq1] using
          mem_firstOccs.mp hv)
      rw [addField, if_neg (by simp [hany])]
      conv_rhs => rw [groupsOf, hvals, firstOccs_append_singleton]
      rw [if_neg hmem, List.map_append]
      congr 1
      · conv_lhs => rw [groupsOf]
        refine List.map_congr_left ?_
        intro v hv
        have hvmem : v ∈ valuesOf l := mem_firstOccs.mp hv
        have hvf : v ≠ f.value := fun hc => hmem (hc ▸ hvmem)
        rw [groupOf_append_ne l f v hvf]
      · rw [List.map_singleton, groupOf_append_self]
        have hcount : (valuesOf l).count f.value = 0 := List.count_eq_zero.mpr hmem
        have hnil : l.filter (fun g => g.value = f.value) = [] := by
          rw [List.filter_eq_nil_iff]
          intro g hg hc
          exact hmem (by
            simp only [valuesOf, List.mem_map]
            exact ⟨g, hg, by simpa using hc⟩)
        rw [hcount, hnil]
        rfl

theorem maxFrom_spec :
    ∀ (t : List (Str × GroupDetails)) (b : Str × GroupDetails),
      ∃ t₁ t₂,
        b :: t = t₁ ++ (t.foldl (fun b p => if p.2.count > b.2.count then p else b) b) :: t₂ ∧
        (∀ q ∈ t₁,
          q.2.count < (t.foldl (fun b p => if p.2.count > b.2.count then p else b) b).2.count) ∧
        (∀ q ∈ b :: t,
          q.2.count ≤ (t.foldl (fun b p => if p.2.count > b.2.count then p else b) b).2.count) := by
  intro t
  induction t with
  | nil =>
    intro b
    exact ⟨[], [], rfl, by simp, by simp⟩
  | cons p t' ih =>
    intro b
    rw [List.foldl_cons]
    by_cases h : p.2.count > b.2.count
    · rw [if_pos h]
      obtain ⟨t₁, t₂, hdec, hlt, hle⟩ := ih p
      refine ⟨b :: t₁, t₂, by rw [List.cons_append, ← hdec], ?_, ?_⟩
      · intro q hq
        rcases List.mem_cons.mp hq with hq | hq
        · subst hq
          exact lt_of_lt_of_le h (hle p (List.mem_cons.mpr (Or.inl rfl)))
        · exact hlt q hq
      · intro q hq
        rcases List.mem_cons.mp hq with hq | hq
        · subst hq
          exact le_of_lt (lt_of_lt_of_le h (hle p (List.mem_cons.mpr (Or.inl rfl))))
        · exact hle q hq
    · rw [if_neg h]
      have hpb : p.2.count ≤ b.2.count := Nat.le_of_not_lt h
      obtain ⟨t₁, t₂, hdec, hlt, hle⟩ := ih b
      have hble : b.2.count ≤
          (t'.foldl (fun b p => if p.2.count > b.2.count then p else b) b).2.count :=
        hle b (List.mem_cons.mpr (Or.inl rfl))
      cases t₁ with
      | nil =>
        have hb : b = t'.foldl (fun b p => if p.2.count > b.2.count then p else b) b := by
          have := hdec
          simp only [List.nil_append] at this
          exact (List.cons_eq_cons.mp this).1
        refine ⟨[], p :: t₂, ?_, by simp, ?_⟩
        · have ht' : t' = t₂ := by
            have := hdec
            simp only [List.nil_append] at this
            exact (List.cons_eq_cons.mp this).2
          rw [List.nil_append, ← hb, ht']
        · intro q hq
          rcases List.mem_cons.mp hq with hq | hq
          · subst hq; exact hble
          · rcases List.mem_cons.mp hq with hq | hq
            · subst hq; exact le_trans hpb hble
            · exact hle q (List.mem_cons.mpr (Or.inr hq))
      | cons c t₁' =>
        have hc : c = b := by
          have := hdec
          rw [List.cons_append] at this
          exact ((List.cons_eq_cons.mp this).1).symm
        have ht' : t' = t₁' ++
            (t'.foldl (fun b p => if p.2.count > b.2.count then p else b) b) :: t₂ := by
          have := hdec
          rw [List.cons_append] at this
          exact (List.cons_eq_cons.mp this).2
        refine ⟨b :: p :: t₁', t₂, ?_, ?_, ?_⟩
        · rw [List.cons_append, List.cons_append, ← ht']
        · intro q hq
          rcases List.mem_cons.mp hq with hq | hq
          · subst hq
            exact hc ▸ hlt c (List.mem_cons.mpr (Or.inl rfl))
          · rcases List.mem_cons.mp hq with hq | hq
            · subst hq
              exact lt_of_le_of_lt hpb (hc ▸ hlt c (List.mem_cons.mpr (Or.inl rfl)))
            · exact hlt q (List.mem_cons.mpr (Or.inr hq))
        · intro q hq
          rcases List.mem_cons.mp hq with hq | hq
          · subst hq; exact hble
          · rcases List.mem_cons.mp hq with hq | hq
            · subst hq; exact le_trans hpb hble
            · exact hle q (List.mem_cons.mpr (Or.inr hq))

theorem pyMaxByCount_spec (l : List (Str × GroupDetails)) (h : l ≠ []) :
    ∃ e, pyMaxByCount l = some e ∧ e ∈ l ∧
      (∀ q ∈ l, q.2.count ≤ e.2.count) ∧
      l.find? (fun p => l.all (fun q => q.2.count ≤ p.2.count)) = some e := by
  cases l with
  | nil => exact absurd rfl h
  | cons b t =>
    obtain ⟨t₁, t₂, hdec, hlt, hle⟩ := maxFrom_spec t b
    set e := t.foldl (fun b p => if p.2.count > b.2.count then p else b) b with he
    refine ⟨e, rfl, ?_, ?_, ?_⟩
    · rw [hdec]
      exact List.mem_append.mpr (Or.inr (List.mem_cons.mpr (Or.inl rfl)))
    · exact hle
    · rw [List.find?_eq_some]
      refine ⟨?_, t₁, t₂, hdec, ?_⟩
      · rw [List.all_eq_true]
        intro q hq
        simpa using hle q hq
      · intro a ha
        have hae : a.2.count < e.2.count := hlt a ha
        have hmem : e ∈ b :: t := by
          rw [hdec]
          exact List.mem_append.mpr (Or.inr (List.mem_cons.mpr (Or.inl rfl)))
        simp only [Bool.not_eq_true']
        rw [Bool.eq_false_iff]
        intro hc
        rw [List.all_eq_true] at hc
        have := hc e hmem
        simp only [decide_eq_true_eq] at this
        exact absurd this (Nat.not_le.mpr hae)

theorem find?_congr {α : Type} {p q : α → Bool} :
    ∀ (l : List α), (∀ x ∈ l, p x = q x) → l.find? p = l.find? q := by
  intro l
  induction l with
  | nil => intro _; rfl
  | cons a l ih =>
    intro h
    have ha := h a (List.mem_cons.mpr (Or.inl rfl))
    cases hpa : p a with
    | true =>
      rw [List.find?_cons_of_pos _ hpa, List.find?_cons_of_pos _ (ha ▸ hpa)]
    | false =>
      rw [List.find?_cons_of_neg _ (by simp [hpa]),
        List.find?_cons_of_neg _ (by simp [ha ▸ hpa]),
        ih (fun x hx => h x (List.mem_cons.mpr (Or.inr hx)))]

theorem list_all_map {α β : Type} (f : α → β) (l : List α) (p : β → Bool) :
    (l.map f).all p = l.all (p ∘ f) := by
  induction l with
  | nil => rfl
  | cons a l ih => simp [ih]

theorem calculate_confidence_eq (fields : List ParsedField) (h : fields ≠ []) :
    ∃ e, pyMaxByCount (valueCounts fields) = some e ∧
      calculate_confidence fields = confidenceFromEntry fields.length e ∧
      e.1 ∈ valuesOf fields ∧
      e.2 = groupOf fields e.1 ∧
      (∀ w ∈ valuesOf fields,
        (valuesOf fields).count w ≤ (valuesOf fields).count e.1) ∧
      firstMaxValue fields = some e.1 := by
  have hg : groupsOf fields ≠ [] := by
    cases fields with
    | nil => exact absurd rfl h
    | cons f l => simp [groupsOf, valuesOf, firstOccs]
  obtain ⟨e, hmax, hmem, hle, hfind⟩ := pyMaxByCount_spec (groupsOf fields) hg
  have hmax' : pyMaxByCount (valueCounts fields) = some e := by
    rw [valueCounts_eq_groupsOf]; exact hmax
  have heq : calculate_confidence fields = confidenceFromEntry fields.length e := by
    unfold calculate_confidence
    rw [if_neg h, hmax']
  obtain ⟨v, hv, rfl⟩ := List.mem_map.mp hmem
  have hvval : v ∈ valuesOf fields := mem_firstOccs.mp hv
  have hcount : ∀ w ∈ valuesOf fields,
      (valuesOf fields).count w ≤ (valuesOf fields).count v := by
    intro w hw
    have hwmem : (w, groupOf fields w) ∈ groupsOf fields :=
      List.mem_map.mpr ⟨w, mem_firstOccs.mpr hw, rfl⟩
    exact hle (w, groupOf fields w) hwmem
  refine ⟨(v, groupOf fields v), hmax', heq, hvval, rfl, hcount, ?_⟩
  rw [firstMaxValue, ← find?_firstOccs]
  have hmapped := hfind
  rw [groupsOf, List.find?_map] at hmapped
  obtain ⟨w, hw1, hw2⟩ := Option.map_eq_some'.mp hmapped
  have hwv : w = v := congrArg Prod.fst hw2
  subst hwv
  rw [← hw1]
  apply find?_congr
  intro x hx
  simp only [Function.comp_apply]
  show isMaxCount fields x =
    (List.map (fun v => (v, groupOf fields v)) (firstOccs (valuesOf fields))).all
      (fun q => q.2.count ≤ (groupOf fields x).count)
  rw [list_all_map, all_firstOccs]
  rfl

/-- C1: for every non-empty sequence of parsed fields, `calculate_confidence`
returns a value of maximal multiplicity among the input values, with
confidence equal to that multiplicity divided by the number of fields, and
validation status green when the confidence equals 1, yellow when it is at
least 0.66, red otherwise. -/
theorem c1_aggregation_majority (fields : List ParsedField) (h : fields ≠ []) :
    (calculate_confidence fields).value ∈ valuesOf fields ∧
    (∀ w ∈ valuesOf fields,
      (valuesOf fields).count w ≤
        (valuesOf fields).count (calculate_confidence fields).value) ∧
    (calculate_confidence fields).confidence =
      ((valuesOf fields).count (calculate_confidence fields).value : ℚ) /
        (fields.length : ℚ) ∧
    (calculate_confidence fields).validation_status =
      (if (calculate_confidence fields).confidence = 1 then "green".data
       else if (calculate_confidence fields).confidence ≥ 66 / 100 then "yellow".data
       else "red".data) := by
  obtain ⟨e, hmax, heq, hval1, hdet, hmaxcount, hfirst⟩ := calculate_confidence_eq fields h
  rw [heq]
  have hvalue : (confidenceFromEntry fields.length e).value = e.1 := rfl
  rw [hvalue]
  refine ⟨hval1, hmaxcount, ?_, ?_⟩
  · show (e.2.count : ℚ) / (fields.length : ℚ) =
      ((valuesOf fields).count e.1 : ℚ) / (fields.length : ℚ)
    rw [hdet]
    rfl
  · rfl

/-- C2: for every non-empty sequence of parsed fields, the value returned by
`calculate_confidence` is the earliest-occurring value of maximal
multiplicity — the insertion-order tie-break, not a re-sorted choice. -/
theorem c2_tie_break_insertion_order (fields : List ParsedField) (h : fields ≠ []) :
    firstMaxValue fields = some (calculate_confidence fields).value := by
  obtain ⟨e, hmax, heq, hval1, hdet, hmaxcount, hfirst⟩ := calculate_confidence_eq fields h
  rw [heq]
  exact hfirst

/-- C3: on the empty input, `calculate_confidence` returns the sentinel
`value = "-"`, `confidence = 0`, `validation_status = grey`, an empty source
and reasoning `"No results found"` (and, being a total function, never
fails). -/
theorem c3_empty_input_floor :
    calculate_confidence [] =
      { value := "-".data, confidence := 0, validation_status := "grey".data,
        source := { url := [], title := [],
                    confidence_notes := "No results found".data },
        reasoning := "No results found".data } := rfl

/-- Modelling the spec's words for C5: Python `round` applied to the exact
ratio `a / b` (`b > 0`): round half to even. -/
def pyRoundRatio (a b : Nat) : Nat :=
  let q := a / b
  let r := a % b
  if 2 * r < b then q
  else if b < 2 * r then q + 1
  else if q % 2 = 0 then q else q + 1

/-- The `confidence_notes` text exactly as the spec words it:
`round(confidence*100)` instead of the code's `int(confidence*100)`
truncation. -/
def specRoundNotes (winCount total : Nat) : Str :=
  (Nat.repr (pyRoundRatio (100 * winCount) total)).data ++
    "% confidence based on ".data ++ (Nat.repr winCount).data ++ "/".data ++
    (Nat.repr total).data ++ " matching results".data

/-- Input refuting C5 as stated: two fields agree on `500g`, one says `450g`. -/
def exC5 : List ParsedField :=
  [⟨"500g".data, "a.com".data, "r1".data⟩,
   ⟨"500g".data, "b.com".data, "r2".data⟩,
   ⟨"450g".data, "c.com".data, "r3".data⟩]

/-- C5 (counterexample): at `exC5` the winning count is 2 of 3; the code's
notes text reads `66%` (truncation of 200/3), while the claim's
`round(confidence*100)` reads `67%`. -/
theorem c5_counterexample :
    (calculate_confidence exC5).value = "500g".data ∧
    (valuesOf exC5).count "500g".data = 2 ∧
    exC5.length = 3 ∧
    (calculate_confidence exC5).source.confidence_notes ≠ specRoundNotes 2 3 ∧
    (calculate_confidence exC5).source.confidence_notes =
      "66% confidence based on 2/3 matching results".data ∧
    specRoundNotes 2 3 = "67% confidence based on 2/3 matching results".data := by
  decide

/-- C5 (amended): for every non-empty sequence of parsed fields, the
`confidence_notes` string is
`"<trunc(confidence*100)>% confidence based on <winning_count>/<total_fields>
matching results"`, where the percentage is the truncation (floor) of
`confidence * 100`, not its rounding. -/
theorem c5_confidence_notes_truncation (fields : List ParsedField)
    (h : fields ≠ []) :
    (calculate_confidence fields).source.confidence_notes =
      (Nat.repr ((100 * (valuesOf fields).count (calculate_confidence fields).value) /
          fields.length)).data ++
        "% confidence based on ".data ++
        (Nat.repr ((valuesOf fields).count (calculate_confidence fields).value)).data ++
        "/".data ++ (Nat.repr fields.length).data ++ " matching results".data := by
  obtain ⟨⟨v, d⟩, hmax, heq, hval1, hdet, hmaxcount, hfirst⟩ :=
    calculate_confidence_eq fields h
  have hd : d = groupOf fields v := hdet
  subst hd
  rw [heq]
  rfl

/-! ## Query fan-out and result assembly
(`search_specification`, `search_utils.py:204-261`)

The three slot calls per part number are modelled by their outcomes: a list
of `Option Str` per part number (`none` models `get_specification_async`
returning `None` after its internal error handling, `search_utils.py:96-98`).
The supplier string only feeds the upstream prompt and plays no role in the
result shape, so it is not a parameter of the model. -/

/-- One `{"name": .., **confidence_result}` entry of `final_results`
(`search_utils.py:241-244`), with the spread fields kept as a nested record. -/
structure SpecVerdict where
  name : Str
  result : ConfidenceResult
deriving DecidableEq

/-- One `{"part_number": .., "specifications": ..}` entry of `all_results`
(`search_utils.py:247-250`). -/
structure PartResult where
  part_number : Str
  specifications : List SpecVerdict
deriving DecidableEq

/-- The top-level response shape: `{"results": ..}` or `{"error": ..}`
(`search_utils.py:255-261`). -/
inductive SearchResponse where
  | results (rs : List PartResult)
  | error (msg : Str)
deriving DecidableEq

/-- The `processed_results` entry for `spec` accumulated over the surviving
responses of one part number (`search_utils.py:228-234` followed by
`.get(spec, [])` at line 239): the per-response contributions concatenated in
response order. -/
def searchFields (responses : List Str) (specifications : List Str) (spec : Str) :
    List ParsedField :=
  responses.flatMap (fun r => process_response r specifications spec)

/-- The `final_results` list for one part number (`search_utils.py:237-244`):
one verdict per requested specification, in request order. -/
def partSpecResults (responses : List Str) (specifications : List Str) :
    List SpecVerdict :=
  specifications.map (fun spec =>
    ⟨spec, calculate_confidence (searchFields responses specifications spec)⟩)

/-- The body of the per-part-number loop (`search_utils.py:213-250`): keep
the non-`None` slot responses; when none survive the part number is skipped
(`continue`, lines 223-225), otherwise its `PartResult` is built. -/
def partOutcome (specifications : List Str) (pa : Str × List (Option Str)) :
    Option PartResult :=
  if pa.2.filterMap id = [] then none
  else some ⟨pa.1, partSpecResults (pa.2.filterMap id) specifications⟩

/-- Function `search_specification` (`search_utils.py:204-261`): the surviving part
results in request order; if no part number survives, the raised exception is
caught and converted into the error shape (lines 252-253 and 259-261). -/
def search_specification (part_numbers : List Str) (specifications : List Str)
    (answers : List (List (Option Str))) : SearchResponse :=
  if (part_numbers.zip answers).filterMap (partOutcome specifications) = [] then
    .error "No valid results obtained for any part numbers".data
  else
    .results ((part_numbers.zip answers).filterMap (partOutcome specifications))

theorem fieldsFromAnswer_length_le_one (raw spec : Str) :
    (fieldsFromAnswer raw spec).length ≤ 1 := by
  rw [fieldsFromAnswer]
  cases hfind : (sectionsOf raw).find? (sectionMatches spec) with
  | none => simp
  | some sec =>
    by_cases hv : (processSection sec).value ≠ "-".data
    · simp [hv]
    · simp [hv]

theorem process_response_length_le_one (raw : Str) (specs : List Str) (spec : Str)
    (hnd : specs.Nodup) : (process_response raw specs spec).length ≤ 1 := by
  rw [process_response]
  have hlen : (specs.filter (fun s => s = spec)).length ≤ 1 := by
    have hsub : (specs.filter (fun s => s = spec)).Sublist specs :=
      List.filter_sublist specs
    have hnd' : (specs.filter (fun s => s = spec)).Nodup := hnd.sublist hsub
    cases hf : specs.filter (fun s => s = spec) with
    | nil => simp
    | cons a t =>
      cases t with
      | nil => simp
      | cons b t' =>
        exfalso
        have ha : a = spec := by
          have := List.mem_filter.mp (hf ▸ List.mem_cons.mpr (Or.inl rfl))
          simpa using this.2
        have hb : b = spec := by
          have := List.mem_filter.mp
            (hf ▸ List.mem_cons.mpr (Or.inr (List.mem_cons.mpr (Or.inl rfl))))
          simpa using this.2
        have : a ≠ b := by
          have := hf ▸ hnd'
          exact (List.nodup_cons.mp this).1 ∘ fun hab =>
            (hab ▸ List.mem_cons.mpr (Or.inl rfl))
        exact this (ha.trans hb.symm)
  cases hf : specs.filter (fun s => s = spec) with
  | nil => simp
  | cons a t =>
    cases t with
    | nil =>
      simp only [List.flatMap_cons, List.flatMap_nil, List.append_nil]
      exact fieldsFromAnswer_length_le_one raw a
    | cons b t' =>
      exfalso
      rw [hf] at hlen
      simp at hlen

theorem searchFields_length_le (responses : List Str) (specs : List Str)
    (spec : Str) (hnd : specs.Nodup) :
    (searchFields responses specs spec).length ≤ responses.length := by
  rw [searchFields]
  induction responses with
  | nil => simp
  | cons r rs ih =>
    rw [List.flatMap_cons, List.length_append, List.length_cons]
    have h1 := process_response_length_le_one r specs spec hnd
    omega

/-- C10: for every raw answer and requested specification (in a
duplicate-free request), the parser yields at most one `ParsedField` per
answer, so with three slots the aggregation input for a specification has at
most `|surviving answers| ≤ 3` fields. -/
theorem c10_parser_at_most_one_field (slots : List (Option Str))
    (specs : List Str) (spec : Str) (hnd : specs.Nodup)
    (hslots : slots.length = 3) :
    (∀ raw : Str, (process_response raw specs spec).length ≤ 1) ∧
    (searchFields (slots.filterMap id) specs spec).length ≤
      (slots.filterMap id).length ∧
    (searchFields (slots.filterMap id) specs spec).length ≤ 3 := by
  refine ⟨fun raw => process_response_length_le_one raw specs spec hnd, ?_, ?_⟩
  · exact searchFields_length_le _ specs spec hnd
  · calc (searchFields (slots.filterMap id) specs spec).length
        ≤ (slots.filterMap id).length := searchFields_length_le _ specs spec hnd
      _ ≤ slots.length := List.length_filterMap_le id slots
      _ = 3 := hslots

theorem surviving_parts_map (specifications : List Str) :
    ∀ (l : List (Str × List (Option Str))),
      ((l.filterMap (partOutcome specifications)).map (fun r => r.part_number)) =
        (l.filter (fun pa => !(pa.2.filterMap id).isEmpty)).map (fun pa => pa.1) := by
  intro l
  induction l with
  | nil => rfl
  | cons pa l ih =>
    by_cases hr : pa.2.filterMap id = []
    · have h1 : partOutcome specifications pa = none := by
        simp [partOutcome, hr]
      have h2 : (!(pa.2.filterMap id).isEmpty) = false := by
        simp [hr]
      rw [List.filterMap_cons, h1, List.filter_cons, h2]
      simpa using ih
    · have h1 : partOutcome specifications pa =
          some ⟨pa.1, partSpecResults (pa.2.filterMap id) specifications⟩ := by
        simp [partOutcome, hr]
      have h2 : (!(pa.2.filterMap id).isEmpty) = true := by
        simp [hr]
      rw [List.filterMap_cons, h1, List.filter_cons, h2]
      simp [ih]

/-- C4: when every part number of the request yields zero surviving slot
answers, `search_specification` returns exactly the error shape with the
message `No valid results obtained for any part numbers`; when at least one
part number survives, the request succeeds with the zero-answer part numbers
omitted from the results. -/
theorem c4_total_failure_propagation (part_numbers : List Str)
    (specifications : List Str) (answers : List (List (Option Str)))
    (hlen : answers.length = part_numbers.length) :
    ((∀ pa ∈ part_numbers.zip answers, pa.2.filterMap id = []) →
      search_specification part_numbers specifications answers =
        .error "No valid results obtained for any part numbers".data) ∧
    ((∃ pa ∈ part_numbers.zip answers, pa.2.filterMap id ≠ []) →
      ∃ rs, search_specification part_numbers specifications answers =
          .results rs ∧
        rs.map (fun r => r.part_number) =
          ((part_numbers.zip answers).filter
            (fun pa => !(pa.2.filterMap id).isEmpty)).map (fun pa => pa.1)) := by
  constructor
  · intro hall
    have hnil : (part_numbers.zip answers).filterMap
        (partOutcome specifications) = [] := by
      rw [List.filterMap_eq_nil_iff]
      intro pa hpa
      simp [partOutcome, hall pa hpa]
    rw [search_specification, if_pos hnil]
  · rintro ⟨pa, hpa, hne⟩
    have hne' : (part_numbers.zip answers).filterMap
        (partOutcome specifications) ≠ [] := by
      intro hc
      rw [List.filterMap_eq_nil_iff] at hc
      have := hc pa hpa
      rw [partOutcome, if_neg hne] at this
      exact Option.noConfusion this
    exact ⟨_, by rw [search_specification, if_neg hne'],
      surviving_parts_map specifications (part_numbers.zip answers)⟩

theorem map_fst_zip_sublist {α β : Type} :
    ∀ (l₁ : List α) (l₂ : List β), ((l₁.zip l₂).map Prod.fst).Sublist l₁ := by
  intro l₁
  induction l₁ with
  | nil => intro l₂; simp
  | cons a l ih =>
    intro l₂
    cases l₂ with
    | nil => simp
    | cons b l₂ =>
      rw [List.zip_cons_cons, List.map_cons]
      exact (ih l₂).cons₂ a

/-- C7: whenever `search_specification` succeeds, each surviving part result
lists its specification verdicts in the request's specification order with
matching names, and the surviving part numbers appear in the request's
part-number order. -/
theorem c7_order_preservation (part_numbers : List Str)
    (specifications : List Str) (answers : List (List (Option Str)))
    (rs : List PartResult)
    (h : search_specification part_numbers specifications answers = .results rs) :
    (∀ r ∈ rs, r.specifications.map (fun s => s.name) = specifications) ∧
    (rs.map (fun r => r.part_number)).Sublist part_numbers := by
  rw [search_specification] at h
  by_cases hc : (part_numbers.zip answers).filterMap
      (partOutcome specifications) = []
  · rw [if_pos hc] at h
    exact absurd h (by simp)
  · rw [if_neg hc] at h
    have hrs : rs = (part_numbers.zip answers).filterMap
        (partOutcome specifications) := by
      cases h
      rfl
    subst hrs
    constructor
    · intro r hr
      obtain ⟨pa, hpa, hout⟩ := List.mem_filterMap.mp hr
      rw [partOutcome] at hout
      by_cases hne : pa.2.filterMap id = []
      · rw [if_pos hne] at hout
        exact Option.noConfusion hout
      · rw [if_neg hne] at hout
        have hr' : r = ⟨pa.1, partSpecResults (pa.2.filterMap id) specifications⟩ :=
          (Option.some.injEq _ _ ▸ hout).symm
        subst hr'
        show (partSpecResults (pa.2.filterMap id) specifications).map
          (fun s => s.name) = specifications
        rw [partSpecResults, List.map_map]
        exact List.map_id' specifications
    · rw [surviving_parts_map]
      have h1 : ((part_numbers.zip answers).filter
          (fun pa => !(pa.2.filterMap id).isEmpty)).Sublist
            (part_numbers.zip answers) := List.filter_sublist _
      have h2 := h1.map (fun pa : Str × List (Option Str) => pa.1)
      exact h2.trans (map_fst_zip_sublist part_numbers answers)

/-! ## Document Extraction Adapter (`pdf_utils.py`)

The vision-direct path: `process_pdf_for_specifications`
(`pdf_utils.py:51-155`) and its response post-processing
(`process_gpt_response` and helpers, `pdf_utils.py:157-303`). -/

/-- Python `int()` on a rational: truncation towards zero. -/
def ratTrunc (q : ℚ) : ℤ :=
  if q.num < 0 then -((q.num.natAbs / q.den : ℕ) : ℤ)
  else ((q.num.natAbs / q.den : ℕ) : ℤ)

/-- Function `extract_part_section` (`pdf_utils.py:231-238`): split on triple
newlines, return the first section containing the part number, and — the
documented-as-default branch — the whole text when no section mentions it. -/
def extract_part_section (text part_number : Str) : Str :=
  match (pySplit text "\n\n\n".data).find?
      (fun sec => pyContains sec part_number) with
  | some sec => sec
  | none => text

/-- The header test of `extract_spec_section` (`pdf_utils.py:245`). -/
def isSpecHeaderLine (spec_name line : Str) : Bool :=
  pyContains (pyLower line) (pyLower spec_name) ||
    pyContains line ("[".data ++ spec_name ++ "]".data) ||
    pyContains line ("**".data ++ spec_name ++ "**".data)

/-- The end-of-section test of `extract_spec_section` (`pdf_utils.py:248`). -/
def isSectionEndLine (line : Str) : Bool :=
  (pyContains line "[".data || pyContains line "**".data) &&
    !(pyContains line ":".data)

/-- Function `extract_spec_section` (`pdf_utils.py:240-252`). -/
def extract_spec_section (text spec_name : Str) : Str :=
  let lines := pySplit text "\n".data
  match lines.findIdx? (isSpecHeaderLine spec_name) with
  | none => []
  | some i =>
    match (lines.drop (i + 1)).findIdx? isSectionEndLine with
    | none => pyJoin "\n".data (lines.drop i)
    | some k => pyJoin "\n".data ((lines.drop i).take (k + 1))

/-- Function `extract_value` (`pdf_utils.py:254-259`): the first line containing
`value:` (case-insensitive), split at the first colon; default `"-"`. -/
def extract_value (spec_section : Str) : Str :=
  match (pySplit spec_section "\n".data).find?
      (fun line => pyContains (pyLower line) "value:".data) with
  | some line => pyStrip (afterFirst ':' line)
  | none => "-".data

/-- Function `extract_source` (`pdf_utils.py:261-266`). -/
def extract_source (spec_section : Str) : Str :=
  match (pySplit spec_section "\n".data).find?
      (fun line => pyContains (pyLower line) "source:".data) with
  | some line => pyStrip (afterFirst ':' line)
  | none => []

/-- Function `extract_confidence` (`pdf_utils.py:268-277`): label and reasoning. -/
def extract_confidence (spec_section : Str) : Str × Str :=
  match (pySplit spec_section "\n".data).find?
      (fun line => pyContains (pyLower line) "confidence:".data) with
  | some line =>
    let conf_text := pyStrip (afterFirst ':' line)
    if conf_text.contains ',' then
      (pyStrip (beforeFirst ',' conf_text), pyStrip (afterFirst ',' conf_text))
    else (conf_text, [])
  | none => ("Low".data, "No confidence information found".data)

/-- Numeric value of a digit string. -/
def digitsVal (ds : List Char) : Nat :=
  ds.foldl (fun n c => 10 * n + (c.toNat - '0'.toNat)) 0

/-- Model of Python `float(s)` for the plain decimal forms
(`[+-]digits[.digits]`, surrounding whitespace allowed); the exotic float
syntaxes (exponents, `inf`, `nan`) the code never receives from its own
prompts are mapped to `none` (which the caller turns into 0.0, exactly as
the `except` clause does). -/
def pyFloat? (s : Str) : Option ℚ :=
  let t := pyStrip s
  let su : ℚ × Str :=
    match t with
    | '-' :: r => (-1, r)
    | '+' :: r => (1, r)
    | _ => (1, t)
  let ip := su.2.takeWhile Char.isDigit
  let rest := su.2.dropWhile Char.isDigit
  match rest with
  | [] => if ip = [] then none else some (su.1 * (digitsVal ip : ℚ))
  | '.' :: fr =>
    if fr.all Char.isDigit && !(ip = [] && fr = []) then
      some (su.1 * ((digitsVal ip : ℚ) + (digitsVal fr : ℚ) / (10 ^ fr.length : ℚ)))
    else none
  | _ => none

/-- Python `s.strip('%')`: drop `%` characters from both ends. -/
def pyStripPercent (s : Str) : Str :=
  ((s.dropWhile (fun c => c = '%')).reverse.dropWhile (fun c => c = '%')).reverse

/-- Function `convert_confidence_to_float` (`pdf_utils.py:279-292`). -/
def convert_confidence_to_float (confidence : Str) : ℚ :=
  if pyContains (pyLower confidence) "high".data then 1
  else if pyContains (pyLower confidence) "medium".data then 7 / 10
  else if pyContains (pyLower confidence) "low".data then 3 / 10
  else
    match pyFloat? (pyStripPercent confidence) with
    | some q => q / 100
    | none => 0

/-- Function `get_validation_status` (`pdf_utils.py:294-303`). -/
def get_validation_status (confidence : ℚ) : Str :=
  if confidence ≥ 8 / 10 then "green".data
  else if confidence ≥ 5 / 10 then "yellow".data
  else if confidence > 0 then "red".data
  else "grey".data

/-- The per-specification body of `process_gpt_response`
(`pdf_utils.py:187-222`): the grey sentinel when no section is found,
otherwise the standardized verdict built from the extracted pieces. -/
def gptSpecVerdict (part_section spec_name : Str) : SpecVerdict :=
  let spec_section := extract_spec_section part_section spec_name
  if spec_section = [] then
    ⟨spec_name, ⟨"-".data, 0, "grey".data, ⟨[], [], "No results found".data⟩,
      "No results found".data⟩⟩
  else
    let value := extract_value spec_section
    let source := extract_source spec_section
    let cr := extract_confidence spec_section
    let confidence_float := convert_confidence_to_float cr.1
    ⟨spec_name,
      ⟨value, confidence_float, get_validation_status confidence_float,
        ⟨source, "PDF Document".data,
          (Int.repr (ratTrunc (confidence_float * 100))).data ++
            "% confidence from PDF analysis".data⟩,
        cr.2⟩⟩

/-- Function `process_gpt_response` (`pdf_utils.py:157-229`): for each part number,
take its section; when the section is empty ("falsy"), fall back to the whole
response if exactly one part number was requested, otherwise skip the part
(`continue`, line 183). -/
def process_gpt_response (raw : Str) (part_numbers specifications : List Str) :
    List PartResult :=
  part_numbers.filterMap (fun part_number =>
    let sec := extract_part_section raw part_number
    if sec = [] then
      if part_numbers.length = 1 then
        some ⟨part_number, specifications.map (gptSpecVerdict raw)⟩
      else none
    else some ⟨part_number, specifications.map (gptSpecVerdict sec)⟩)

/-- The shape of the decoded upstream chat-completion body, as far as
`process_pdf_for_specifications` inspects it (`pdf_utils.py:137-147`):
`choices` missing or empty, first choice without `message`, message without
`content`, or a content string. -/
inductive ChatCompletion where
  | missingChoices
  | missingMessage
  | missingContent
  | ok (content : Str)
deriving DecidableEq

/-- Function `process_pdf_for_specifications` (`pdf_utils.py:51-155`), as a function
of the upstream HTTP outcome (status code, response text, decoded body
shape).  A non-200 status raises, and the `except` turns the exception into
the error shape (lines 130-132 and 153-155); a 200 response whose body lacks
the expected fields hits `return None` (lines 137-145) — the outer `Option`
models that Python `None`. -/
def process_pdf_for_specifications (status : Nat) (text : Str)
    (body : ChatCompletion) (part_numbers specifications : List Str) :
    Option SearchResponse :=
  if status ≠ 200 then
    some (.error ("API request failed with status ".data ++
      (Nat.repr status).data ++ ": ".data ++ text))
  else
    match body with
    | .missingChoices => none
    | .missingMessage => none
    | .missingContent => none
    | .ok raw => some (.results (process_gpt_response raw part_numbers specifications))

/-- C8 (code-bug evaluation): on an HTTP 200 upstream response whose JSON
body has no `choices` key, the document path returns Python `None` — neither
the `results` nor the `error` shape the claim allows. -/
theorem c8_document_path_returns_none :
    process_pdf_for_specifications 200 [] ChatCompletion.missingChoices
      ["P1".data] ["Weight".data] = none := rfl

/-- The C9 failing input: a response with no triple-newline part sections,
mentioning only part `P1`. -/
def c9raw : Str :=
  ("P1\nWeight\nValue: 2kg\nSource: Page 1, Table 2\nConfidence: High, from spec table").data

/-- C9 (code-bug evaluation): with two part numbers requested and no
triple-newline-delimited section mentioning `P2`, the code does not omit
`P2`: `extract_part_section` falls back to the whole text, defeating the
skip branch, and `P2` receives a specification fabricated from `P1`'s
text. -/
theorem c9_missing_part_not_omitted :
    (pySplit c9raw "\n\n\n".data).find? (fun sec => pyContains sec "P2".data) = none ∧
    extract_part_section c9raw "P2".data = c9raw ∧
    (process_gpt_response c9raw ["P1".data, "P2".data] ["Weight".data]).map
        (fun r => (r.part_number,
          r.specifications.map (fun s => (s.name, s.result.value)))) =
      [("P1".data, [("Weight".data, "2kg".data)]),
       ("P2".data, [("Weight".data, "2kg".data)])] := by
  decide

theorem processLine_value_of_not_value (acc : SectionAcc) (l : Str)
    (h : isValueLine l = false) : (processLine acc l).value = acc.value := by
  have h' : pyStartsWith (pyLower (pyStrip l)) "value:".data = false := h
  rw [processLine]
  simp only [h', Bool.false_eq_true, if_false]
  split
  · rfl
  · split
    · split
      · rfl
      · rfl
    · rfl

theorem processSection_value_of_no_value_line (sec : Str)
    (h : ∀ l ∈ pySplit sec "\n".data, isValueLine l = false) :
    (processSection sec).value = "-".data := by
  rw [processSection]
  have hgen : ∀ (lines : List Str) (acc : SectionAcc),
      (∀ l ∈ lines, isValueLine l = false) →
      (lines.foldl processLine acc).value = acc.value := by
    intro lines
    induction lines with
    | nil => intro acc _; rfl
    | cons l ls ih =>
      intro acc hall
      rw [List.foldl_cons, ih _ (fun x hx => hall x (List.mem_cons.mpr (Or.inr hx))),
        processLine_value_of_not_value acc l (hall l (List.mem_cons.mpr (Or.inl rfl)))]
  exact hgen _ _ h

/-- C6: for every raw answer and requested specification, when the matched
section's extracted value is `"-"` — in particular when its `Value` line
carries `-`, or when it has no `Value` line at all — the parser contributes
no `ParsedField` for that specification from that answer (and, being a total
function, it never fails on malformed input). -/
theorem c6_parser_omission (raw : Str) (specs : List Str) (spec : Str) (sec : Str)
    (hfind : (sectionsOf raw).find? (sectionMatches spec) = some sec)
    (hval : (processSection sec).value = "-".data ∨
      ∀ l ∈ pySplit sec "\n".data, isValueLine l = false) :
    process_response raw specs spec = [] := by
  have hv : (processSection sec).value = "-".data := by
    rcases hval with h | h
    · exact h
    · exact processSection_value_of_no_value_line sec h
  rw [process_response, List.flatMap_eq_nil_iff]
  intro s hs
  have hss : s = spec := by simpa using (List.mem_filter.mp hs).2
  subst hss
  rw [fieldsFromAnswer, hfind]
  simp [hv]

/-! ## Concrete-input witnesses -/

/-- Concrete input for the C1 witness: a 2-1 majority on `2kg`. -/
def exC1 : List ParsedField :=
  [⟨"2kg".data, "acme.com".data, "ra".data⟩,
   ⟨"2kg".data, "parts.com".data, "rb".data⟩,
   ⟨"3kg".data, "forum.com".data, "rc".data⟩]

/-- C1 witness: the majority law instantiated at `exC1`. -/
theorem c1_aggregation_majority_witness :
    exC1 ≠ [] ∧
    ((calculate_confidence exC1).value ∈ valuesOf exC1 ∧
     (∀ w ∈ valuesOf exC1,
       (valuesOf exC1).count w ≤
         (valuesOf exC1).count (calculate_confidence exC1).value) ∧
     (calculate_confidence exC1).confidence =
       ((valuesOf exC1).count (calculate_confidence exC1).value : ℚ) /
         (exC1.length : ℚ) ∧
     (calculate_confidence exC1).validation_status =
       (if (calculate_confidence exC1).confidence = 1 then "green".data
        else if (calculate_confidence exC1).confidence ≥ 66 / 100 then "yellow".data
        else "red".data)) :=
  ⟨by decide, c1_aggregation_majority exC1 (by decide)⟩

/-- Concrete input for the C2 witness: a 1-1-1 three-way tie, values in
input order `A`, `B`, `C`. -/
def exC2 : List ParsedField :=
  [⟨"A".data, "s1".data, "r1".data⟩,
   ⟨"B".data, "s2".data, "r2".data⟩,
   ⟨"C".data, "s3".data, "r3".data⟩]

/-- C2 witness: the insertion-order tie-break instantiated at the 1-1-1 tie,
where the first-encountered value `A` wins. -/
theorem c2_tie_break_witness :
    exC2 ≠ [] ∧
    firstMaxValue exC2 = some (calculate_confidence exC2).value ∧
    (calculate_confidence exC2).value = "A".data :=
  ⟨by decide, c2_tie_break_insertion_order exC2 (by decide), by decide⟩

/-- Raw answer used by the C4 witness. -/
def c4resp : Str :=
  ("Weight\nValue: 2kg\nSource: acme.com\nConfidence: High, spec sheet").data

/-- C4 witness: the total-failure / omission dichotomy instantiated at a
two-part request whose second part number has no surviving slot. -/
theorem c4_total_failure_witness :
    (([[some c4resp, none, none], [none, none, none]] :
        List (List (Option Str))).length =
      (["P1".data, "P2".data] : List Str).length) ∧
    (((∀ pa ∈ (["P1".data, "P2".data] : List Str).zip
          [[some c4resp, none, none], [none, none, none]],
        pa.2.filterMap id = []) →
      search_specification ["P1".data, "P2".data] ["Weight".data]
          [[some c4resp, none, none], [none, none, none]] =
        .error "No valid results obtained for any part numbers".data) ∧
     ((∃ pa ∈ (["P1".data, "P2".data] : List Str).zip
          [[some c4resp, none, none], [none, none, none]],
        pa.2.filterMap id ≠ []) →
      ∃ rs, search_specification ["P1".data, "P2".data] ["Weight".data]
            [[some c4resp, none, none], [none, none, none]] = .results rs ∧
        rs.map (fun r => r.part_number) =
          (((["P1".data, "P2".data] : List Str).zip
              [[some c4resp, none, none], [none, none, none]]).filter
            (fun pa => !(pa.2.filterMap id).isEmpty)).map (fun pa => pa.1))) :=
  ⟨rfl, c4_total_failure_propagation ["P1".data, "P2".data] ["Weight".data]
    [[some c4resp, none, none], [none, none, none]] rfl⟩

/-- C5 witness: the truncation form of the notes text instantiated at
`exC5`, where the winning count is 2 of 3. -/
theorem c5_confidence_notes_witness :
    exC5 ≠ [] ∧
    (calculate_confidence exC5).source.confidence_notes =
      (Nat.repr ((100 * (valuesOf exC5).count (calculate_confidence exC5).value) /
          exC5.length)).data ++
        "% confidence based on ".data ++
        (Nat.repr ((valuesOf exC5).count (calculate_confidence exC5).value)).data ++
        "/".data ++ (Nat.repr exC5.length).data ++ " matching results".data :=
  ⟨by decide, c5_confidence_notes_truncation exC5 (by decide)⟩

/-- Raw answer used by the C6 witness: the matched section's `Value` line
carries `-`. -/
def c6raw : Str :=
  ("Weight\nValue: -\nSource: x.com\nConfidence: High, not in any source").data

/-- C6 witness: the omission law instantiated at a `Value: -` section. -/
theorem c6_parser_omission_witness :
    ((sectionsOf c6raw).find? (sectionMatches "Weight".data) = some c6raw ∧
     (processSection c6raw).value = "-".data) ∧
    process_response c6raw ["Weight".data] "Weight".data = [] :=
  ⟨⟨by decide, by decide⟩,
    c6_parser_omission c6raw ["Weight".data] "Weight".data c6raw (by decide)
      (Or.inl (by decide))⟩

/-- Raw answer used by the C7 witness. -/
def c7resp : Str :=
  ("Weight\nValue: 2kg\nSource: acme.com\nConfidence: High, measured").data

/-- C7 witness: order preservation instantiated at a one-part request with
one surviving slot. -/
theorem c7_order_preservation_witness :
    (∀ r ∈ [(⟨"P1".data, partSpecResults [c7resp] ["Weight".data]⟩ : PartResult)],
      r.specifications.map (fun s => s.name) = ["Weight".data]) ∧
    (([(⟨"P1".data, partSpecResults [c7resp] ["Weight".data]⟩ : PartResult)].map
      (fun r => r.part_number)).Sublist ["P1".data]) :=
  c7_order_preservation ["P1".data] ["Weight".data]
    [[some c7resp, none, none]]
    [⟨"P1".data, partSpecResults [c7resp] ["Weight".data]⟩] rfl

/-- Raw answer used by the C10 witness. -/
def c10resp : Str :=
  ("Weight\nValue: 5mm\nSource: a.com\nConfidence: High, datasheet").data

/-- C10 witness: the at-most-one-field bound instantiated at a three-slot
outcome with one surviving answer. -/
theorem c10_parser_witness :
    ((["Weight".data] : List Str).Nodup ∧
      ([some c10resp, none, none] : List (Option Str)).length = 3) ∧
    ((∀ raw : Str,
        (process_response raw ["Weight".data] "Weight".data).length ≤ 1) ∧
     (searchFields (([some c10resp, none, none] :
          List (Option Str)).filterMap id) ["Weight".data] "Weight".data).length ≤
        (([some c10resp, none, none] : List (Option Str)).filterMap id).length ∧
     (searchFields (([some c10resp, none, none] :
          List (Option Str)).filterMap id) ["Weight".data] "Weight".data).length ≤ 3) :=
  ⟨⟨by decide, rfl⟩,
    c10_parser_at_most_one_field [some c10resp, none, none] ["Weight".data]
      "Weight".data (by decide) rfl⟩

/-- C10 (counterexample): with a duplicated specification name in the
request, the `processed_specs` dictionary receives one append per occurrence
(`search_utils.py:135-143` run once per occurrence of the name), so a single
answer contributes two `ParsedField`s for that specification and three full
slots contribute six — refuting the at-most-one-per-answer and at-most-3
bounds as stated. -/
theorem c10_counterexample :
    ([some c10resp, some c10resp, some c10resp] : List (Option Str)).length = 3 ∧
    (process_response c10resp ["Weight".data, "Weight".data]
      "Weight".data).length = 2 ∧
    (searchFields (([some c10resp, some c10resp, some c10resp] :
          List (Option Str)).filterMap id)
        ["Weight".data, "Weight".data] "Weight".data).length = 6 := by
  decide
